import Mathlib

/-!
Verification of the flag-store and unread-huddles reducers of the
zulip-mobile client state layer.

The flags reducer (`flagsReducer` below, the default export of the flags
reducer module) keeps, per flag-kind, the set of message ids carrying that
flag.  A JavaScript object used as a map is embedded as an ordered
association list `List (String × Finset Nat)`: `objGet` is property read,
`objSet` is the update-in-place-or-append behaviour of an object spread.
Per-flag objects have all values `true`, so each is embedded as the
`Finset Nat` of its keys.
-/

set_option autoImplicit false

namespace ZulipFlags

abbrev PerFlag := Finset Nat

/-- A JavaScript object used as a string-keyed map of per-flag id sets. -/
abbrev FlagsState := List (String × PerFlag)

/-- Property read `state[flag]`: first entry with the given key, if any. -/
def objGet : FlagsState → String → Option PerFlag
  | [], _ => none
  | p :: rest, f => if p.1 = f then some p.2 else objGet rest f

/-- Object update `{...state, [flag]: v}`: replaces the value at an existing
key in place, appends a fresh key at the end. -/
def objSet : FlagsState → String → PerFlag → FlagsState
  | [], f, v => [(f, v)]
  | p :: rest, f, v => if p.1 = f then (f, v) :: rest else p :: objSet rest f v

/-- The seven enumerated flag-kinds, in the key order of `initialState`. -/
def knownFlags : List String :=
  ["read", "starred", "collapsed", "mentioned", "wildcard_mentioned",
   "has_alert_word", "historical"]

/-- `initialState` of the flags reducer: the seven kinds, each empty. -/
def initialState : FlagsState :=
  [("read", ∅), ("starred", ∅), ("collapsed", ∅), ("mentioned", ∅),
   ("wildcard_mentioned", ∅), ("has_alert_word", ∅), ("historical", ∅)]

/-- `messages.forEach(m => { perFlag[m] = true })` over a base object. -/
def natsInto (base : PerFlag) (messages : List Nat) : PerFlag :=
  messages.foldl (fun pf m => insert m pf) base

/-- `messages.forEach(m => { delete perFlag[m] })` over a base object. -/
def natsErase (base : PerFlag) (messages : List Nat) : PerFlag :=
  messages.foldl (fun pf m => pf.erase m) base

/-- `addFlagsForMessages`: short-circuits (returning the input object) when
either list is empty; otherwise, for each flag in `flags`, rebuilds that
flag's set from the *original* state with all ids of `messages` inserted,
and spreads the per-flag updates over the state. -/
def addFlagsForMessages (state : FlagsState) (messages : List Nat)
    (flags : List String) : FlagsState :=
  if messages.isEmpty || flags.isEmpty then state
  else
    flags.foldl
      (fun newSt flag => objSet newSt flag (natsInto ((objGet state flag).getD ∅) messages))
      state

/-- `removeFlagForMessages`: always rebuilds `{...state, [flag]: copy-minus-ids}`.
Note this writes the key `flag` even when the state had no entry for it. -/
def removeFlagForMessages (state : FlagsState) (messages : List Nat)
    (flag : String) : FlagsState :=
  objSet state flag (natsErase ((objGet state flag).getD ∅) messages)

/-- A message as the flags reducer sees it: an id and an optional flag list
(`flags` may be absent on the wire, hence `Option`). -/
structure Message where
  id : Nat
  flags : Option (List String)
deriving DecidableEq, Repr

/-- One step of the `newState` accumulation in `processFlagsForMessages`:
for message id `mid` and one of its flags, if the original state does not
already record the pair, insert it into the accumulated fresh object and
set the `stateChanged` bit. -/
def accumStep (state : FlagsState) (mid : Nat) (acc : FlagsState × Bool)
    (flag : String) : FlagsState × Bool :=
  if mid ∈ (objGet state flag).getD ∅ then acc
  else (objSet acc.1 flag (insert mid ((objGet acc.1 flag).getD ∅)), true)

/-- The inner `forEach` over one message's flags in `processFlagsForMessages`. -/
def accumFlags (state : FlagsState) (mid : Nat) (fs : List String)
    (acc : FlagsState × Bool) : FlagsState × Bool :=
  fs.foldl (accumStep state mid) acc

/-- The full `newState` / `stateChanged` accumulation of
`processFlagsForMessages` over the message batch. -/
def processAccum (state : FlagsState) (msgs : List Message) : FlagsState × Bool :=
  msgs.foldl (fun acc msg => accumFlags state msg.id (msg.flags.getD []) acc) ([], false)

/-- Modelled from the spec: the helper `deeperMerge` (imported from
`utils/misc`, not among the provided sources) merges an update object into
the state one level deeper than an object spread: keys of the update are
written over the state, and where both hold a per-flag object the two are
spread together, which on all-`true` objects is set union.  New keys are
appended in the update's insertion order. -/
def deeperMerge (state : FlagsState) (news : FlagsState) : FlagsState :=
  news.foldl (fun st p => objSet st p.1 (((objGet st p.1).getD ∅) ∪ p.2)) state

/-- `processFlagsForMessages`: scan the batch collecting flags not already
recorded; if anything is new, deep-merge the fresh object into the state,
otherwise return the input state itself. -/
def processFlagsForMessages (state : FlagsState) (messages : List Message) : FlagsState :=
  if (processAccum state messages).2 then deeperMerge state (processAccum state messages).1
  else state

/-- The `op` field of an `EVENT_UPDATE_MESSAGE_FLAGS` action. -/
inductive FlagOp
  | add
  | remove
deriving DecidableEq, Repr

/-- `eventUpdateMessageFlags`: the all-scope add path restarts from
`initialState` with the full id universe; the all-scope remove path writes
`{...state, [flag]: {}}`; the scoped paths delegate to the two helpers. -/
def eventUpdateMessageFlags (state : FlagsState) (all : Bool) (op : FlagOp)
    (flag : String) (messages : List Nat) (allMessages : List Nat) : FlagsState :=
  if all then
    match op with
    | FlagOp.add => addFlagsForMessages initialState allMessages [flag]
    | FlagOp.remove => objSet state flag ∅
  else
    match op with
    | FlagOp.add => addFlagsForMessages state messages [flag]
    | FlagOp.remove => removeFlagForMessages state messages flag

/-- The actions the flags reducer switches on. -/
inductive FlagsAction
  | registerComplete
  | logout
  | loginSuccess
  | accountSwitch
  | messageFetchComplete (messages : List Message)
  | eventNewMessage (message : Message)
  | eventUpdateMessageFlags (all : Bool) (op : FlagOp) (flag : String)
      (messages : List Nat) (allMessages : List Nat)
  | other
deriving DecidableEq, Repr

/-- The flags reducer.  `none` embeds the `invariant(action.message.flags, ...)`
fatal assertion on `EVENT_NEW_MESSAGE` firing: it fires exactly when the
flag list is absent (a present-but-empty array is truthy in JavaScript). -/
def flagsReducer (state : FlagsState) (action : FlagsAction) : Option FlagsState :=
  match action with
  | FlagsAction.registerComplete => some initialState
  | FlagsAction.logout => some initialState
  | FlagsAction.loginSuccess => some initialState
  | FlagsAction.accountSwitch => some initialState
  | FlagsAction.messageFetchComplete msgs => some (processFlagsForMessages state msgs)
  | FlagsAction.eventNewMessage m =>
      match m.flags with
      | none => none
      | some fs => some (addFlagsForMessages state [m.id] fs)
  | FlagsAction.eventUpdateMessageFlags all op flag msgs allMsgs =>
      some (eventUpdateMessageFlags state all op flag msgs allMsgs)
  | FlagsAction.other => some state

/-- `flagsStateToStringList`: `Object.keys(flags).filter(key => flags[key][id])`. -/
def flagsStateToStringList (flags : FlagsState) (id : Nat) : List String :=
  (flags.map Prod.fst).filter (fun key => decide (id ∈ (objGet flags key).getD ∅))

end ZulipFlags

namespace ZulipHuddles

open ZulipFlags (FlagOp)

/-- One unread-huddles entry: the sorted-joined participant key and the
unread message ids of that group conversation. -/
structure UnreadHuddleEntry where
  user_ids_string : String
  unread_message_ids : List Nat
deriving DecidableEq, Repr

/-- A new-message event's payload as the huddles reducer consumes it. -/
structure HuddleMessage where
  id : Nat
  isPrivate : Bool
  recipients : List Nat
  flags : List String
  sender_id : Nat
deriving DecidableEq, Repr

/-- Per-id recipient detail delivered with a remove-read flag event. -/
structure MessageDetail where
  type : String
  user_ids : List Nat
deriving DecidableEq, Repr

/-- The actions the unread-huddles reducer consumes. -/
inductive HuddlesAction
  | sessionReset
  | registerComplete (huddles : List UnreadHuddleEntry)
  | eventNewMessage (message : HuddleMessage)
  | eventUpdateMessageFlags (all : Bool) (op : FlagOp) (flag : String)
      (messages : List Nat) (message_details : Option (List (Nat × MessageDetail)))
deriving DecidableEq, Repr

/-- Insert a number before the first list element it does not exceed. -/
def insertSorted (n : Nat) : List Nat → List Nat
  | [] => [n]
  | m :: rest => if n ≤ m then n :: m :: rest else m :: insertSorted n rest

/-- Ascending insertion sort. -/
def sortNats (l : List Nat) : List Nat := l.foldr insertSorted []

/-- Modelled from the spec: the participant key of a group conversation is
the distinct participant ids, always including the local user's id, sorted
numerically and comma-joined. -/
def huddleKey (ownUserId : Nat) (userIds : List Nat) : String :=
  String.intercalate "," ((sortNats ((ownUserId :: userIds).dedup)).map toString)

/-- Modelled from the spec: add an unread id into the entry matching `key`,
keeping the id list sorted and suppressing duplicates; append a fresh entry
at the end when no entry has that key. -/
def addUnreadId : List UnreadHuddleEntry → String → Nat → List UnreadHuddleEntry
  | [], key, id => [⟨key, [id]⟩]
  | e :: rest, key, id =>
      if e.user_ids_string = key then
        (if id ∈ e.unread_message_ids then e
         else ⟨e.user_ids_string, insertSorted id e.unread_message_ids⟩) :: rest
      else
        e :: addUnreadId rest key id

/-- Modelled from the spec: on a qualifying new message, append its id at
the end of the matching entry's list (suppressing duplicates), or append a
fresh entry when no entry has that key. -/
def appendUnreadId : List UnreadHuddleEntry → String → Nat → List UnreadHuddleEntry
  | [], key, id => [⟨key, [id]⟩]
  | e :: rest, key, id =>
      if e.user_ids_string = key then
        (if id ∈ e.unread_message_ids then e
         else ⟨e.user_ids_string, e.unread_message_ids ++ [id]⟩) :: rest
      else
        e :: appendUnreadId rest key id

/-- Modelled from the spec and the reducer's unit tests: a scoped add of the
read flag deletes the given ids from every entry, dropping entries left
empty. -/
def removeUnreadIds (entries : List UnreadHuddleEntry) (messages : List Nat) :
    List UnreadHuddleEntry :=
  (entries.map (fun e =>
      UnreadHuddleEntry.mk e.user_ids_string
        (e.unread_message_ids.filter (fun i => decide (i ∉ messages))))).filter
    (fun e => decide (e.unread_message_ids ≠ []))

/-- Modelled from the spec: a scoped remove of the read flag resolves each
affected id's participant key from the out-of-band detail map and adds the
id into the matching (or newly created) entry; ids with no private-type
detail are skipped. -/
def unreadHuddleEventRemove (ownUserId : Nat) (state : List UnreadHuddleEntry)
    (messages : List Nat) (details : List (Nat × MessageDetail)) :
    List UnreadHuddleEntry :=
  messages.foldl
    (fun st mid =>
      match details.find? (fun p => decide (p.1 = mid)) with
      | none => st
      | some p =>
          if p.2.type = "private" then addUnreadId st (huddleKey ownUserId p.2.user_ids) mid
          else st)
    state

/-- Modelled from the spec: the unread-huddles reducer source is not among
the provided sources (only its unit tests are); this follows spec section
4.2 and those tests.  Session boundaries reset to the empty list; a resync
replaces the list verbatim; a qualifying new group message files its id
under its participant key; flag events touch the store only for the read
flag. -/
def unreadHuddlesReducer (state : List UnreadHuddleEntry) (action : HuddlesAction)
    (ownUserId : Nat) : List UnreadHuddleEntry :=
  match action with
  | HuddlesAction.sessionReset => []
  | HuddlesAction.registerComplete huddles => huddles
  | HuddlesAction.eventNewMessage m =>
      if !m.isPrivate then state
      else if "read" ∈ m.flags then state
      else if m.sender_id = ownUserId then state
      else appendUnreadId state (huddleKey ownUserId m.recipients) m.id
  | HuddlesAction.eventUpdateMessageFlags all op flag msgs details =>
      if flag ≠ "read" then state
      else if all then
        match op with
        | FlagOp.add => []
        | FlagOp.remove => state
      else
        match op with
        | FlagOp.add => removeUnreadIds state msgs
        | FlagOp.remove =>
            match details with
            | none => state
            | some ds => unreadHuddleEventRemove ownUserId state msgs ds

end ZulipHuddles


namespace ZulipFlags

theorem objGet_objSet (l : FlagsState) (f : String) (v : PerFlag) (g : String) :
    objGet (objSet l f v) g = if g = f then some v else objGet l g := by
  induction l with
  | nil =>
      by_cases h : g = f
      · subst h; simp [objSet, objGet]
      · have h2 : ¬ f = g := fun e => h e.symm
        simp [objSet, objGet, h, h2]
  | cons p rest ih =>
      by_cases hp : p.1 = f
      · by_cases h : g = f
        · subst h; simp [objSet, objGet, hp]
        · have h2 : ¬ f = g := fun e => h e.symm
          have hpg : ¬ p.1 = g := by rw [hp]; exact h2
          simp [objSet, objGet, hp, h, h2, hpg]
      · by_cases h : g = f
        · subst h
          simp [objSet, objGet, hp, ih]
        · simp only [objSet, if_neg hp, objGet]
          by_cases hq : p.1 = g
          · simp [hq, h]
          · simp [hq, ih, h]

theorem objSet_self (l : FlagsState) (f : String) (v : PerFlag)
    (h : objGet l f = some v) : objSet l f v = l := by
  induction l with
  | nil => simp [objGet] at h
  | cons p rest ih =>
      by_cases hp : p.1 = f
      · subst hp
        simp only [objGet, if_pos rfl] at h
        have h2 : p.2 = v := Option.some.inj h
        simp [objSet, ← h2]
      · simp only [objGet, if_neg hp] at h
        simp [objSet, hp, ih h]

theorem objSet_objSet (l : FlagsState) (f : String) (a b : PerFlag) :
    objSet (objSet l f a) f b = objSet l f b := by
  induction l with
  | nil => simp [objSet]
  | cons p rest ih =>
      by_cases hp : p.1 = f
      · simp [objSet, hp]
      · simp [objSet, hp, ih]

theorem objGet_initial_known (k : String) (hk : k ∈ knownFlags) :
    objGet initialState k = some ∅ := by
  simp only [knownFlags, List.mem_cons, List.not_mem_nil, or_false] at hk
  rcases hk with rfl | rfl | rfl | rfl | rfl | rfl | rfl <;> decide

theorem natsInto_mem (l : List Nat) : ∀ (base : PerFlag) (x : Nat),
    x ∈ natsInto base l ↔ x ∈ base ∨ x ∈ l := by
  induction l with
  | nil => intro base x; simp [natsInto]
  | cons a rest ih =>
      intro base x
      have h : natsInto base (a :: rest) = natsInto (insert a base) rest := rfl
      rw [h, ih]
      simp [Finset.mem_insert, List.mem_cons]
      tauto

theorem natsErase_mem (l : List Nat) : ∀ (base : PerFlag) (x : Nat),
    x ∈ natsErase base l ↔ x ∈ base ∧ x ∉ l := by
  induction l with
  | nil => intro base x; simp [natsErase]
  | cons a rest ih =>
      intro base x
      have h : natsErase base (a :: rest) = natsErase (base.erase a) rest := rfl
      rw [h, ih]
      simp [Finset.mem_erase, List.mem_cons]
      tauto

theorem natsErase_natsInto (v : PerFlag) (ids : List Nat)
    (hdisj : ∀ i ∈ ids, i ∉ v) : natsErase (natsInto v ids) ids = v := by
  ext x
  rw [natsErase_mem, natsInto_mem]
  constructor
  · rintro ⟨hx | hx, hnot⟩
    · exact hx
    · exact absurd hx hnot
  · intro hx
    exact ⟨Or.inl hx, fun hmem => hdisj x hmem hx⟩

end ZulipFlags

namespace ZulipFlags

end ZulipFlags

namespace ZulipHuddles

end ZulipHuddles

namespace ZulipFlags

/-- C1 counterexample: with starred = {5}, an all-messages-scope add of the
read flag with universe {1} empties the starred set, so the other
flag-kinds are not left unchanged from the input state. -/
theorem c1_counterexample :
    objGet (eventUpdateMessageFlags (objSet initialState "starred" {5}) true FlagOp.add
        "read" [] [1]) "starred"
      ≠ objGet (objSet initialState "starred" {5}) "starred" := by decide

/-- C1 (amended): an all-messages-scope add of flag-kind k (one of the seven
enumerated kinds) yields a state in which k's set is exactly the given
identifier universe and the set of every other enumerated flag-kind is
reset to empty: the code rebuilds from the initial state, not from the
input state. -/
theorem c1_all_scope_add_resets (s : FlagsState) (k : String) (u : List Nat)
    (hk : k ∈ knownFlags) :
    objGet (eventUpdateMessageFlags s true FlagOp.add k [] u) k = some (natsInto ∅ u)
    ∧ ∀ k2 ∈ knownFlags, k2 ≠ k →
        objGet (eventUpdateMessageFlags s true FlagOp.add k [] u) k2 = some ∅ := by
  have hred : eventUpdateMessageFlags s true FlagOp.add k [] u
      = addFlagsForMessages initialState u [k] := rfl
  rw [hred]
  cases u with
  | nil =>
      constructor
      · simpa [addFlagsForMessages, natsInto] using objGet_initial_known k hk
      · intro k2 hk2 _
        simpa [addFlagsForMessages] using objGet_initial_known k2 hk2
  | cons a rest =>
      have hform : addFlagsForMessages initialState (a :: rest) [k]
          = objSet initialState k (natsInto ((objGet initialState k).getD ∅) (a :: rest)) := by
        simp [addFlagsForMessages]
      rw [hform, objGet_initial_known k hk]
      constructor
      · rw [objGet_objSet]; simp
      · intro k2 hk2 hne
        rw [objGet_objSet, if_neg hne]
        exact objGet_initial_known k2 hk2

/-- C1 witness: the amended theorem applied at flag-kind read with
universe [1, 2]. -/
theorem c1_witness :
    "read" ∈ knownFlags
    ∧ objGet (eventUpdateMessageFlags initialState true FlagOp.add "read" [] [1, 2]) "read"
        = some (natsInto ∅ [1, 2]) :=
  ⟨by decide, (c1_all_scope_add_resets initialState "read" [1, 2] (by decide)).1⟩

/-- C2 counterexample: with read = {99} before the event, a bulk-fetch of a
single message with id 1 and flag read leaves 99 recorded under read, even
though no message of the batch has id 99: the pre-event entry survives
without being re-derived from the batch. -/
theorem c2_counterexample :
    99 ∈ (objGet (processFlagsForMessages (objSet initialState "read" {99})
        [Message.mk 1 (some ["read"])]) "read").getD ∅
    ∧ ∀ m ∈ [Message.mk 1 (some ["read"])], m.id ≠ 99 := by decide

/-- C3: the code records flag-kinds outside the seven enumerated kinds
instead of ignoring them: a scoped add of the unknown kind "secret" for
message 1 changes the state based on the initial state and creates an entry
for the unknown kind, contradicting both the spec's edge-case policy and
the code's own comments that such flags should be ignored. -/
theorem c3_unknown_flag_recorded :
    eventUpdateMessageFlags initialState false FlagOp.add "secret" [1] [] ≠ initialState
    ∧ objGet (eventUpdateMessageFlags initialState false FlagOp.add "secret" [1] []) "secret"
        = some {1} := by decide

/-- C5 counterexample: with read = {1}, adding then removing the read flag
for id list [1] empties the read set, so the round trip is not
content-equal to the original state. -/
theorem c5_counterexample :
    eventUpdateMessageFlags
        (eventUpdateMessageFlags (objSet initialState "read" {1}) false FlagOp.add "read" [1] [])
        false FlagOp.remove "read" [1] []
      ≠ objSet initialState "read" {1} := by decide

/-- C5 (amended): when flag f already has an entry and none of the given
ids is already in f's set, applying the scoped add and then the scoped
remove of the same (flag, ids) pair yields a state content-equal to the
original. -/
theorem c5_add_remove_roundtrip (s : FlagsState) (f : String) (ids : List Nat) (v : PerFlag)
    (hv : objGet s f = some v) (hdisj : ∀ i ∈ ids, i ∉ v) :
    eventUpdateMessageFlags (eventUpdateMessageFlags s false FlagOp.add f ids [])
      false FlagOp.remove f ids [] = s := by
  cases ids with
  | nil =>
      have hadd : eventUpdateMessageFlags s false FlagOp.add f [] [] = s := by
        simp [eventUpdateMessageFlags, addFlagsForMessages]
      rw [hadd]
      have hrem : eventUpdateMessageFlags s false FlagOp.remove f [] []
          = removeFlagForMessages s [] f := rfl
      rw [hrem]
      have h1 : removeFlagForMessages s [] f = objSet s f v := by
        simp [removeFlagForMessages, natsErase, hv]
      rw [h1, objSet_self s f v hv]
  | cons a rest =>
      have hadd : eventUpdateMessageFlags s false FlagOp.add f (a :: rest) []
          = objSet s f (natsInto v (a :: rest)) := by
        simp [eventUpdateMessageFlags, addFlagsForMessages, hv]
      rw [hadd]
      have hrem : eventUpdateMessageFlags (objSet s f (natsInto v (a :: rest)))
            false FlagOp.remove f (a :: rest) []
          = removeFlagForMessages (objSet s f (natsInto v (a :: rest))) (a :: rest) f := rfl
      rw [hrem]
      have hget : objGet (objSet s f (natsInto v (a :: rest))) f
          = some (natsInto v (a :: rest)) := by
        rw [objGet_objSet]; simp
      rw [removeFlagForMessages, hget]
      simp only [Option.getD_some]
      rw [natsErase_natsInto v (a :: rest) hdisj, objSet_objSet, objSet_self s f v hv]

/-- C5 witness: the amended theorem applied at the initial state, flag
read (entry present, empty set), and ids [1, 2]. -/
theorem c5_witness :
    objGet initialState "read" = some ∅
    ∧ (∀ i ∈ [1, 2], i ∉ (∅ : PerFlag))
    ∧ eventUpdateMessageFlags
        (eventUpdateMessageFlags initialState false FlagOp.add "read" [1, 2] [])
        false FlagOp.remove "read" [1, 2] [] = initialState :=
  ⟨by decide, by decide,
    c5_add_remove_roundtrip initialState "read" [1, 2] ∅ (by decide) (by decide)⟩

/-- C6 counterexample: a new-message event whose flag list is present but
empty passes the assertion and is handled normally (no fatal failure), so
the contract enforced by the code is presence of the flag list, not
non-emptiness. -/
theorem c6_counterexample :
    flagsReducer initialState (FlagsAction.eventNewMessage (Message.mk 1 (some [])))
      = some initialState := by decide

/-- C6 (amended): a message delivered by a new-message event must carry a
flag list (present, possibly empty); the reducer aborts on the assertion
exactly when the flag list is absent, and under the precondition that the
flag list is present the assertion never fires. -/
theorem c6_assertion_presence (s : FlagsState) (m : Message) :
    (flagsReducer s (FlagsAction.eventNewMessage m)).isSome = m.flags.isSome := by
  cases m with
  | mk mid fl => cases fl <;> simp [flagsReducer]

/-- C9: a new-message event whose flag list is present but empty passes the
assertion (which requires only presence) and returns the input state
unchanged, for every state and message id. -/
theorem c9_empty_flag_list_noop (s : FlagsState) (mid : Nat) :
    flagsReducer s (FlagsAction.eventNewMessage (Message.mk mid (some []))) = some s := by
  simp [flagsReducer, addFlagsForMessages]

/-- C10: flagsStateToStringList returns exactly the keys of the state under
which the id is recorded present: membership in the returned list is
equivalent to being a key of the state whose set holds the id, and the
returned list is empty exactly when no key's set holds the id. -/
theorem c10_flags_to_string_list (f : FlagsState) (mid : Nat) :
    (∀ k, k ∈ flagsStateToStringList f mid
        ↔ (k ∈ f.map Prod.fst ∧ mid ∈ (objGet f k).getD ∅))
    ∧ (flagsStateToStringList f mid = []
        ↔ ∀ k ∈ f.map Prod.fst, mid ∉ (objGet f k).getD ∅) := by
  constructor
  · intro k
    simp [flagsStateToStringList, List.mem_filter]
  · simp [flagsStateToStringList, List.filter_eq_nil_iff]

end ZulipFlags

namespace ZulipHuddles

open ZulipFlags (FlagOp)

/-- C7: the remove-read flag event with per-id recipient detail files each
id under the entry keyed by its sorted recipient ids plus the own id,
appends a new entry for a key with no existing entry, and suppresses
duplicates: the spec's concrete example evaluates to the expected state. -/
theorem c7_remove_read_example :
    unreadHuddlesReducer [⟨"0,1,2", [1, 2, 3]⟩]
      (HuddlesAction.eventUpdateMessageFlags false FlagOp.remove "read" [10, 11, 12]
        (some [(10, ⟨"private", [1, 2]⟩), (11, ⟨"private", [1, 2]⟩),
               (12, ⟨"private", [1, 2, 3]⟩)])) 0
      = [⟨"0,1,2", [1, 2, 3, 10, 11]⟩, ⟨"0,1,2,3", [12]⟩] := by decide

/-- C8: a new-message event whose message is not a direct/group message, or
whose flag list contains the read flag, or whose sender is the local user,
leaves the unread-huddles state unchanged. -/
theorem c8_new_message_noop (st : List UnreadHuddleEntry) (m : HuddleMessage) (own : Nat)
    (h : m.isPrivate = false ∨ "read" ∈ m.flags ∨ m.sender_id = own) :
    unreadHuddlesReducer st (HuddlesAction.eventNewMessage m) own = st := by
  rcases h with h | h | h
  · simp [unreadHuddlesReducer, h]
  · simp [unreadHuddlesReducer, h]
  · simp [unreadHuddlesReducer, h]

/-- C8 witness: the theorem applied to a read-flagged group message. -/
theorem c8_witness :
    ((HuddleMessage.mk 5 true [1, 2] ["read"] 2).isPrivate = false
      ∨ "read" ∈ (HuddleMessage.mk 5 true [1, 2] ["read"] 2).flags
      ∨ (HuddleMessage.mk 5 true [1, 2] ["read"] 2).sender_id = 0)
    ∧ unreadHuddlesReducer []
        (HuddlesAction.eventNewMessage (HuddleMessage.mk 5 true [1, 2] ["read"] 2)) 0 = [] :=
  ⟨by decide, c8_new_message_noop [] (HuddleMessage.mk 5 true [1, 2] ["read"] 2) 0 (by decide)⟩

end ZulipHuddles

namespace ZulipFlags

theorem mem_keys_objSet (l : FlagsState) (f : String) (v : PerFlag) (g : String) :
    g ∈ (objSet l f v).map Prod.fst ↔ g ∈ l.map Prod.fst ∨ g = f := by
  induction l with
  | nil => simp [objSet]
  | cons p rest ih =>
      by_cases hp : p.1 = f
      · subst hp
        simp [objSet]
        tauto
      · simp [objSet, hp, ih]
        tauto

theorem nodup_keys_objSet (l : FlagsState) (f : String) (v : PerFlag)
    (h : (l.map Prod.fst).Nodup) : ((objSet l f v).map Prod.fst).Nodup := by
  induction l with
  | nil => simp [objSet]
  | cons p rest ih =>
      simp only [List.map_cons, List.nodup_cons] at h
      by_cases hp : p.1 = f
      · subst hp
        simpa [objSet] using h
      · simp only [objSet, if_neg hp, List.map_cons, List.nodup_cons]
        constructor
        · intro hmem
          rcases (mem_keys_objSet rest f v p.1).mp hmem with hmem | hmem
          · exact h.1 hmem
          · exact hp hmem
        · exact ih h.2

theorem objGet_eq_none (l : FlagsState) (g : String) (h : g ∉ l.map Prod.fst) :
    objGet l g = none := by
  induction l with
  | nil => rfl
  | cons p rest ih =>
      simp only [List.map_cons, List.mem_cons] at h
      push_neg at h
      have hp : ¬ p.1 = g := fun e => h.1 e.symm
      simp [objGet, hp, ih h.2]

theorem deeperMerge_nil (st : FlagsState) : deeperMerge st [] = st := rfl

theorem deeperMerge_cons (st : FlagsState) (p : String × PerFlag) (rest : FlagsState) :
    deeperMerge st (p :: rest)
      = deeperMerge (objSet st p.1 (((objGet st p.1).getD ∅) ∪ p.2)) rest := rfl

theorem deeperMerge_mem (news : FlagsState) : ∀ (st : FlagsState),
    (news.map Prod.fst).Nodup → ∀ (k : String) (x : Nat),
      (x ∈ (objGet (deeperMerge st news) k).getD ∅
        ↔ x ∈ (objGet st k).getD ∅ ∨ x ∈ (objGet news k).getD ∅) := by
  induction news with
  | nil => intro st _ k x; simp [deeperMerge_nil, objGet]
  | cons p rest ih =>
      intro st hnd k x
      simp only [List.map_cons, List.nodup_cons] at hnd
      rw [deeperMerge_cons, ih _ hnd.2]
      by_cases hk : k = p.1
      · have hrest : objGet rest p.1 = none := objGet_eq_none rest p.1 hnd.1
        subst hk
        rw [objGet_objSet, if_pos rfl]
        simp only [objGet, eq_self_iff_true, if_true, Option.getD_some, Finset.mem_union,
          hrest, Option.getD_none, Finset.not_mem_empty, or_false]
      · have hpk : ¬ p.1 = k := fun e => hk e.symm
        rw [objGet_objSet, if_neg hk]
        simp only [objGet, if_neg hpk]

theorem accumFlags_nil (state : FlagsState) (mid : Nat) (acc : FlagsState × Bool) :
    accumFlags state mid [] acc = acc := rfl

theorem accumFlags_cons (state : FlagsState) (mid : Nat) (f : String) (fs : List String)
    (acc : FlagsState × Bool) :
    accumFlags state mid (f :: fs) acc
      = accumFlags state mid fs (accumStep state mid acc f) := rfl

theorem accumFlags_nodup (state : FlagsState) (mid : Nat) (fs : List String) :
    ∀ (acc : FlagsState × Bool), (acc.1.map Prod.fst).Nodup →
      ((accumFlags state mid fs acc).1.map Prod.fst).Nodup := by
  induction fs with
  | nil => intro acc h; exact h
  | cons f rest ih =>
      intro acc h
      rw [accumFlags_cons]
      apply ih
      by_cases hg : mid ∈ (objGet state f).getD ∅
      · simpa [accumStep, hg] using h
      · simp only [accumStep, if_neg hg]
        exact nodup_keys_objSet acc.1 f _ h

theorem accumFlags_mem (state : FlagsState) (mid : Nat) (k : String) (x : Nat)
    (fs : List String) : ∀ (acc : FlagsState × Bool),
    (x ∈ (objGet (accumFlags state mid fs acc).1 k).getD ∅
      ↔ x ∈ (objGet acc.1 k).getD ∅
        ∨ (mid = x ∧ x ∉ (objGet state k).getD ∅ ∧ k ∈ fs)) := by
  induction fs with
  | nil => intro acc; simp [accumFlags_nil]
  | cons f rest ih =>
      intro acc
      rw [accumFlags_cons, ih]
      by_cases hg : mid ∈ (objGet state f).getD ∅
      · rw [show accumStep state mid acc f = acc from by simp [accumStep, hg]]
        constructor
        · rintro (h | ⟨rfl, h2, h3⟩)
          · exact Or.inl h
          · exact Or.inr ⟨rfl, h2, List.mem_cons_of_mem f h3⟩
        · rintro (h | ⟨rfl, h2, h3⟩)
          · exact Or.inl h
          · rcases List.mem_cons.mp h3 with rfl | h3
            · exact absurd hg h2
            · exact Or.inr ⟨rfl, h2, h3⟩
      · rw [show (accumStep state mid acc f).1
            = objSet acc.1 f (insert mid ((objGet acc.1 f).getD ∅)) from by
          simp [accumStep, hg]]
        by_cases hk : k = f
        · subst hk
          rw [objGet_objSet, if_pos rfl]
          simp only [Option.getD_some, Finset.mem_insert]
          constructor
          · rintro ((rfl | h) | ⟨rfl, h2, h3⟩)
            · exact Or.inr ⟨rfl, hg, by simp⟩
            · exact Or.inl h
            · exact Or.inr ⟨rfl, h2, by simp [h3]⟩
          · rintro (h | ⟨rfl, h2, h3⟩)
            · exact Or.inl (Or.inr h)
            · exact Or.inl (Or.inl rfl)
        · rw [objGet_objSet, if_neg hk]
          simp [List.mem_cons, hk]

theorem accumStep_true (state : FlagsState) (mid : Nat) (acc : FlagsState × Bool)
    (f : String) (h : acc.2 = true) : (accumStep state mid acc f).2 = true := by
  unfold accumStep
  split
  · exact h
  · rfl

theorem accumFlags_true (state : FlagsState) (mid : Nat) (fs : List String) :
    ∀ acc, acc.2 = true → (accumFlags state mid fs acc).2 = true := by
  induction fs with
  | nil => intro acc h; exact h
  | cons f rest ih =>
      intro acc h
      rw [accumFlags_cons]
      exact ih _ (accumStep_true state mid acc f h)

theorem accumFlags_false (state : FlagsState) (mid : Nat) (fs : List String) :
    ∀ acc, (accumFlags state mid fs acc).2 = false →
      acc.2 = false ∧ ∀ k ∈ fs, mid ∈ (objGet state k).getD ∅ := by
  induction fs with
  | nil => intro acc h; exact ⟨h, by simp⟩
  | cons f rest ih =>
      intro acc h
      rw [accumFlags_cons] at h
      by_cases hg : mid ∈ (objGet state f).getD ∅
      · rw [show accumStep state mid acc f = acc from by simp [accumStep, hg]] at h
        obtain ⟨h1, h2⟩ := ih acc h
        refine ⟨h1, ?_⟩
        intro k hk
        rcases List.mem_cons.mp hk with rfl | hk
        · exact hg
        · exact h2 k hk
      · exfalso
        have hstep : (accumStep state mid acc f).2 = true := by simp [accumStep, hg]
        have htrue := accumFlags_true state mid rest _ hstep
        rw [h] at htrue
        simp at htrue

theorem processAccum_mem_aux (state : FlagsState) (k : String) (x : Nat)
    (msgs : List Message) : ∀ (acc : FlagsState × Bool),
    (x ∈ (objGet (msgs.foldl
            (fun a msg => accumFlags state msg.id (msg.flags.getD []) a) acc).1 k).getD ∅
      ↔ x ∈ (objGet acc.1 k).getD ∅
        ∨ ∃ m ∈ msgs, m.id = x ∧ x ∉ (objGet state k).getD ∅ ∧ k ∈ m.flags.getD []) := by
  induction msgs with
  | nil => intro acc; simp
  | cons m rest ih =>
      intro acc
      rw [List.foldl_cons, ih, accumFlags_mem]
      constructor
      · rintro ((h | ⟨rfl, h2, h3⟩) | ⟨m2, hm2, h4, h5, h6⟩)
        · exact Or.inl h
        · exact Or.inr ⟨m, List.mem_cons_self m rest, rfl, h2, h3⟩
        · exact Or.inr ⟨m2, List.mem_cons_of_mem m hm2, h4, h5, h6⟩
      · rintro (h | ⟨m2, hm2, h4, h5, h6⟩)
        · exact Or.inl (Or.inl h)
        · rcases List.mem_cons.mp hm2 with rfl | hm2
          · exact Or.inl (Or.inr ⟨h4, h5, h6⟩)
          · exact Or.inr ⟨m2, hm2, h4, h5, h6⟩

theorem processAccum_mem (state : FlagsState) (msgs : List Message) (k : String) (x : Nat) :
    x ∈ (objGet (processAccum state msgs).1 k).getD ∅
      ↔ ∃ m ∈ msgs, m.id = x ∧ x ∉ (objGet state k).getD ∅ ∧ k ∈ m.flags.getD [] := by
  have h := processAccum_mem_aux state k x msgs ([], false)
  simpa [processAccum, objGet] using h

theorem processAccum_nodup (state : FlagsState) (msgs : List Message) :
    ((processAccum state msgs).1.map Prod.fst).Nodup := by
  have h : ∀ acc : FlagsState × Bool, (acc.1.map Prod.fst).Nodup →
      ((msgs.foldl (fun a msg => accumFlags state msg.id (msg.flags.getD []) a) acc).1.map
        Prod.fst).Nodup := by
    induction msgs with
    | nil => intro acc hacc; exact hacc
    | cons m rest ih =>
        intro acc hacc
        rw [List.foldl_cons]
        exact ih _ (accumFlags_nodup state m.id _ acc hacc)
  simpa [processAccum] using h ([], false) (by simp)

theorem processAccum_false_aux (state : FlagsState) (msgs : List Message) :
    ∀ acc : FlagsState × Bool,
      (msgs.foldl (fun a msg => accumFlags state msg.id (msg.flags.getD []) a) acc).2 = false →
      acc.2 = false ∧ ∀ m ∈ msgs, ∀ k ∈ m.flags.getD [], m.id ∈ (objGet state k).getD ∅ := by
  induction msgs with
  | nil => intro acc h; exact ⟨h, by simp⟩
  | cons m rest ih =>
      intro acc h
      rw [List.foldl_cons] at h
      obtain ⟨h1, h2⟩ := ih _ h
      obtain ⟨h3, h4⟩ := accumFlags_false state m.id _ acc h1
      refine ⟨h3, ?_⟩
      intro m2 hm2 k hk
      rcases List.mem_cons.mp hm2 with rfl | hm2
      · exact h4 k hk
      · exact h2 m2 hm2 k hk

theorem processAccum_false (state : FlagsState) (msgs : List Message)
    (hf : (processAccum state msgs).2 = false) :
    ∀ m ∈ msgs, ∀ k ∈ m.flags.getD [], m.id ∈ (objGet state k).getD ∅ :=
  (processAccum_false_aux state msgs ([], false) (by simpa [processAccum] using hf)).2

/-- C2 (amended): a bulk message-fetch completion merges the batch-derived
flags into the pre-event state rather than replacing it: a message id is
present under a flag-kind in the result iff it was present in the pre-event
state or some message of the batch has that id and carries that flag, so
pre-event entries survive. -/
theorem c2_fetch_merges (s : FlagsState) (msgs : List Message) :
    flagsReducer s (FlagsAction.messageFetchComplete msgs)
        = some (processFlagsForMessages s msgs)
    ∧ ∀ (k : String) (x : Nat),
        (x ∈ (objGet (processFlagsForMessages s msgs) k).getD ∅
          ↔ x ∈ (objGet s k).getD ∅ ∨ ∃ m ∈ msgs, m.id = x ∧ k ∈ m.flags.getD []) := by
  refine ⟨rfl, ?_⟩
  intro k x
  by_cases hch : (processAccum s msgs).2 = true
  · have hpf : processFlagsForMessages s msgs = deeperMerge s (processAccum s msgs).1 := by
      simp [processFlagsForMessages, hch]
    rw [hpf, deeperMerge_mem _ s (processAccum_nodup s msgs) k x, processAccum_mem]
    constructor
    · rintro (h | ⟨m, hm, h1, h2, h3⟩)
      · exact Or.inl h
      · exact Or.inr ⟨m, hm, h1, h3⟩
    · rintro (h | ⟨m, hm, h1, h3⟩)
      · exact Or.inl h
      · by_cases hx : x ∈ (objGet s k).getD ∅
        · exact Or.inl hx
        · exact Or.inr ⟨m, hm, h1, hx, h3⟩
  · have hf : (processAccum s msgs).2 = false := by
      cases hb : (processAccum s msgs).2
      · rfl
      · exact absurd hb hch
    have hpf : processFlagsForMessages s msgs = s := by
      simp [processFlagsForMessages, hf]
    rw [hpf]
    constructor
    · exact Or.inl
    · rintro (h | ⟨m, hm, h1, h3⟩)
      · exact h
      · have hmem := processAccum_false s msgs hf m hm k h3
        rw [h1] at hmem
        exact hmem

end ZulipFlags
